import Mathlib

/-!
Verification of the bulk-configuration propagation verifier and the
listener fixture builder (internal/util/builder/listener.go and the
e2e performance test TestBasicPerf).

The Go code is shallowly embedded:
  * the `ListenerBuilder` and its setters become pure record updates;
  * `getRandomList` becomes a function of `n` and the permutation
    produced by rand.Perm (modelled as an arbitrary permutation of
    `List.range n`); the Go slice expression `randPerm[:10]`, which
    panics when the slice is shorter than 10, is modelled by `Option`;
  * the concurrent harness of `TestBasicPerf` becomes a trace
    semantics: a run is a list of abstract steps (clock records, the
    synchronous kubectl-apply call, goroutine dispatches, task
    resolutions, the wait-group join and the final duration report),
    quantified over every admissible interleaving of the concurrent
    section;
  * the polling closure handed to require.Eventually becomes a
    fuel-indexed loop over probe results.
-/

/-! ## Listener fixture builder (listener.go) -/

/-- External type sigs.k8s.io AllowedRoutes. The builder stores the
caller's pointer without inspecting it, so only its identity matters
here; the two fields mirror Namespaces and Kinds. -/
structure AllowedRoutes where
  namespacesFrom : Option String
  kinds : List (String × String)
deriving DecidableEq

/-- External type sigs.k8s.io GatewayTLSConfig, likewise carried opaquely
(the builder never writes it, so it stays at its zero value). -/
structure GatewayTLSConfig where
  mode : Option String
  certificateRefs : List String
deriving DecidableEq

/-- gatewayv1beta1.Listener. SectionName, Hostname and ProtocolType are
string types; PortNumber is an int32; pointer fields become `Option`. -/
structure Listener where
  name : String
  hostname : Option String
  port : Int
  protocol : String
  tls : Option GatewayTLSConfig
  allowedRoutes : Option AllowedRoutes
deriving DecidableEq

/-- The Go zero value of `Listener`: empty strings, 0, nil pointers. -/
def zeroListener : Listener :=
  { name := "", hostname := none, port := 0, protocol := "",
    tls := none, allowedRoutes := none }

/-- gatewayv1beta1 protocol constants. -/
def HTTPProtocolType : String := "HTTP"

def HTTPSProtocolType : String := "HTTPS"

def TLSProtocolType : String := "TLS"

def TCPProtocolType : String := "TCP"

/-- Go conversion int → int32 (PortNumber), wrapping modulo 2^32. -/
def toInt32 (x : Int) : Int := (x + 2 ^ 31) % 2 ^ 32 - 2 ^ 31

/-- Go helper addressOf: a fresh pointer to the value, i.e. `some`. -/
def addressOf (x : α) : Option α := some x

/-- ListenerBuilder wraps a Listener under construction. -/
structure ListenerBuilder where
  listener : Listener
deriving DecidableEq

/-- NewListener: a composite literal setting only Name; every other
field keeps its Go zero value. -/
def NewListener (name : String) : ListenerBuilder :=
  ⟨{ zeroListener with name := name }⟩

/-- Build returns the configured Listener. -/
def ListenerBuilder.Build (b : ListenerBuilder) : Listener := b.listener

/-- IntoSlice returns the configured Listener in a slice. -/
def ListenerBuilder.IntoSlice (b : ListenerBuilder) : List Listener :=
  [b.listener]

def ListenerBuilder.WithPort (b : ListenerBuilder) (port : Int) : ListenerBuilder :=
  ⟨{ b.listener with port := toInt32 port }⟩

def ListenerBuilder.HTTP (b : ListenerBuilder) : ListenerBuilder :=
  ⟨{ b.listener with protocol := HTTPProtocolType }⟩

def ListenerBuilder.HTTPS (b : ListenerBuilder) : ListenerBuilder :=
  ⟨{ b.listener with protocol := HTTPSProtocolType }⟩

def ListenerBuilder.TLS (b : ListenerBuilder) : ListenerBuilder :=
  ⟨{ b.listener with protocol := TLSProtocolType }⟩

def ListenerBuilder.TCP (b : ListenerBuilder) : ListenerBuilder :=
  ⟨{ b.listener with protocol := TCPProtocolType }⟩

def ListenerBuilder.WithHostname (b : ListenerBuilder) (hostname : String) : ListenerBuilder :=
  ⟨{ b.listener with hostname := addressOf hostname }⟩

def ListenerBuilder.WithAllowedRoutes (b : ListenerBuilder) (routes : Option AllowedRoutes) : ListenerBuilder :=
  ⟨{ b.listener with allowedRoutes := routes }⟩

/-- One call to one of the seven setters, for reasoning about arbitrary
finite setter sequences. -/
inductive SetterOp where
  | withPort (p : Int)
  | http
  | https
  | tls
  | tcp
  | withHostname (h : String)
  | withAllowedRoutes (r : Option AllowedRoutes)
deriving DecidableEq

def applyOp (b : ListenerBuilder) : SetterOp → ListenerBuilder
  | .withPort p => b.WithPort p
  | .http => b.HTTP
  | .https => b.HTTPS
  | .tls => b.TLS
  | .tcp => b.TCP
  | .withHostname h => b.WithHostname h
  | .withAllowedRoutes r => b.WithAllowedRoutes r

def applyOps (b : ListenerBuilder) (ops : List SetterOp) : ListenerBuilder :=
  ops.foldl applyOp b

/-! ## Sample selector (getRandomList) -/

/-- getRandomList from the perf test. `perm` stands for the value of
rand.Perm(n), an arbitrary permutation of `[0, n)`; `randPerm[:10]`
panics when the slice has fewer than 10 elements, which is modelled by
`none`. On the small branch the source returns `{0, n}` (sic), and on
the large branch it appends 0 and n-1 to the first ten entries of the
permutation without de-duplicating. -/
def getRandomList (n : ℕ) (perm : List ℕ) : Option (List ℕ) :=
  if n ≤ 10 then some [0, n]
  else if 10 ≤ perm.length then some (perm.take 10 ++ [0, n - 1])
  else none

/-! ## Verification task poll loop (the require.Eventually closure) -/

/-- Outcome of one probe attempt: a transport error (err != nil from the
HTTP client's Do call), or a response carrying its status code, a flag
telling whether b.ReadFrom(resp.Body) returned an error, and the body
content that was read (so the byte count n of ReadFrom is the body's
length). -/
inductive ProbeResult where
  | err
  | ok (status : ℕ) (readErr : Bool) (body : String)
deriving DecidableEq

/-- strings.Contains, via splitOn: the pattern occurs iff splitting on
it yields more than one part. -/
def strContains (s pat : String) : Bool := (s.splitOn pat).length != 1

/-- What one evaluation of the Eventually closure does: `observed` is
the closure returning true, `retry` is the closure returning false
(poll again on the next tick), and `fatal` is require.NoError or
require.True failing the whole test from inside the closure. -/
inductive AttemptResult where
  | observed
  | retry
  | fatal
deriving DecidableEq

/-- One evaluation of the require.Eventually closure: a transport error
logs a warning and returns false; on a 200 response the body is read,
where a read error fails the test (require.NoError) and an empty body
fails the test (require.True n > 0), and otherwise the closure returns
whether the body contains "origin"; any other status returns false. -/
def attemptResult : ProbeResult → AttemptResult
  | .err => .retry
  | .ok status readErr body =>
    if status == 200 then
      if readErr then .fatal
      else if body.length == 0 then .fatal
      else if strContains body "origin" then .observed
      else .retry
    else .retry

/-- How a verification task resolves: `success` when Eventually observes
the condition in time, `deadline` when the ingressWait window elapses
with no success (require.Eventually fails the test), `aborted` when a
require inside the closure fails the test first. -/
inductive TaskOutcome where
  | success
  | deadline
  | aborted
deriving DecidableEq

/-- require.Eventually's polling loop: one closure evaluation per tick
of the poll interval; `fuel` is the number of ticks remaining in the
ingressWait window. -/
def pollLoop (probe : ℕ → ProbeResult) : ℕ → ℕ → TaskOutcome
  | _, 0 => .deadline
  | attempt, fuel + 1 =>
    match attemptResult (probe attempt) with
    | .observed => .success
    | .fatal => .aborted
    | .retry => pollLoop probe (attempt + 1) fuel

/-- A verification task's terminal outcome: polling from attempt 0. -/
def taskOutcome (probe : ℕ → ProbeResult) (fuel : ℕ) : TaskOutcome :=
  pollLoop probe 0 fuel

/-! ## Harness trace semantics (TestBasicPerf) -/

/-- Abstract steps of a TestBasicPerf run. `record slot t` is a
time.Now() capture into the source variable t<slot> (the source uses
t1, t2 and t4); `submit ok` is the synchronous kubectl-apply call;
`dispatch idx` launches the goroutine polling index idx; `resolve idx
ok` is that goroutine's wg.Done after its Eventually resolves;
`joinDone` is wg.Wait returning; `report sub propagation` is the final
pair of logged durations. -/
inductive Step where
  | record (slot : ℕ) (t : Int)
  | submit (ok : Bool)
  | dispatch (idx : ℕ)
  | resolve (idx : ℕ) (ok : Bool)
  | joinDone
  | report (sub propagation : Int)
deriving DecidableEq

def isSubmit : Step → Bool
  | .submit _ => true
  | _ => false

def isDispatch : Step → Bool
  | .dispatch _ => true
  | _ => false

def isResolve : Step → Bool
  | .resolve _ _ => true
  | _ => false

/-- The time.Now() capture into t4, taken right after wg.Wait: the
verification-end instant. -/
def isVerifEndRecord : Step → Bool
  | .record slot _ => slot == 4
  | _ => false

def dispatchIdx : Step → Option ℕ
  | .dispatch i => some i
  | _ => none

def resolveIdx : Step → Option ℕ
  | .resolve i _ => some i
  | _ => none

/-- Checks that every resolution in the concurrent section comes after
the dispatch of the same index. -/
def resolveAfterDispatchB (conc : List Step) : Bool :=
  (List.range conc.length).all fun j =>
    match conc.getD j Step.joinDone with
    | Step.resolve i _ => (conc.take j).contains (Step.dispatch i)
    | _ => true

/-- Admissible interleavings of the concurrent section of the run: the
main goroutine dispatches one task per element of `sample` in order,
and each task resolves exactly once, at any point after its own
dispatch; nothing else happens in this section. -/
def ValidConc (sample : List ℕ) (conc : List Step) : Prop :=
  (∀ s ∈ conc, isDispatch s = true ∨ isResolve s = true) ∧
  conc.filterMap dispatchIdx = sample ∧
  (conc.filterMap resolveIdx).Perm sample ∧
  resolveAfterDispatchB conc = true

/-- The traces of a TestBasicPerf run whose submission succeeds: t1 is
recorded, the kubectl apply runs synchronously and returns, t2 is
recorded, the concurrent verification section runs under some
admissible interleaving, wg.Wait returns once every task has resolved,
t4 is recorded, and the two durations t2-t1 (apply time) and t4-t2
(propagation time) are logged. -/
def IsBasicPerfRun (sample : List ℕ) (t1 t2 t4 : Int) (tr : List Step) : Prop :=
  ∃ conc, ValidConc sample conc ∧
    tr = Step.record 1 t1 :: Step.submit true :: Step.record 2 t2 ::
      (conc ++ [Step.joinDone, Step.record 4 t4, Step.report (t2 - t1) (t4 - t2)])

/-- The trace of a run whose kubectl apply fails: require.NoError aborts
the test immediately after the failed submission, before t2 is recorded
and before any verification task is dispatched. -/
def IsAbortedRun (t1 : Int) (tr : List Step) : Prop :=
  tr = [Step.record 1 t1, Step.submit false]

/-- The instant captured by a clock-record step, if any. -/
def recordInstant : Step → Option Int
  | .record _ t => some t
  | _ => none

/-- The duration pair logged by a report step, if any. -/
def reportPair : Step → Option (Int × Int)
  | .report a b => some (a, b)
  | _ => none

/-- The instants captured by time.Now() during a run, in order. -/
def recordedInstants (tr : List Step) : List Int :=
  tr.filterMap recordInstant

/-- The duration pairs logged at the end of a run. -/
def reportedDurations (tr : List Step) : List (Int × Int) :=
  tr.filterMap reportPair

/-- A concrete run used to witness the harness theorems: one sampled
index (7), submission from instant 0 to 5, verification ending at 9. -/
def conc0 : List Step := [Step.dispatch 7, Step.resolve 7 true]

def tr0 : List Step :=
  [Step.record 1 0, Step.submit true, Step.record 2 5,
   Step.dispatch 7, Step.resolve 7 true,
   Step.joinDone, Step.record 4 9, Step.report 5 4]

/-! ## Theorems: sample selector -/

/-- C1: refuted by the code at n = 5. The spec demands every returned
index lie in [0, n) and that n-1 be included, but the small branch of
getRandomList returns {0, n}: the element 5 is not below 5, and
n - 1 = 4 is absent. (The spec's design notes themselves flag this
branch as an off-by-one defect.) -/
theorem getRandomList_smallBranch_out_of_range :
    getRandomList 5 (List.range 5) = some [0, 5] ∧
    (([0, 5] : List ℕ).all fun x => decide (x < 5)) = false ∧
    ¬ (4 ∈ ([0, 5] : List ℕ)) :=
  ⟨by decide, by decide, by decide⟩

/-- C2 counterexample: at n = 13 with the identity permutation (a value
rand.Perm(13) can produce), the code returns
[0,1,2,3,4,5,6,7,8,9,0,12], which contains 0 twice: the result is a
plain append, not the de-duplicated set the claim describes. -/
theorem getRandomList_not_dedup_counterexample :
    (12 : ℕ) < 13 ∧ (List.range 13).Perm (List.range 13) ∧
    getRandomList 13 (List.range 13) = some [0, 1, 2, 3, 4, 5, 6, 7, 8, 9, 0, 12] ∧
    ¬ ([0, 1, 2, 3, 4, 5, 6, 7, 8, 9, 0, 12] : List ℕ).Nodup :=
  ⟨by decide, List.Perm.refl _, by decide, by decide⟩

/-- C2 (amended): for n > 12 the selector takes the first ten entries of
the random permutation (ten distinct indices drawn without replacement)
and appends 0 and n-1 without de-duplicating; the returned list has
length 12, every element lies in [0, n), it contains 0 and n-1, and its
set of distinct indices has between 10 and 12 elements. -/
theorem getRandomList_large_sample_bounds (n : ℕ) (perm : List ℕ)
    (hn : 12 < n) (hp : perm.Perm (List.range n)) :
    getRandomList n perm = some (perm.take 10 ++ [0, n - 1]) ∧
    (perm.take 10 ++ [0, n - 1]).length = 12 ∧
    ((perm.take 10 ++ [0, n - 1]).all fun x => decide (x < n)) = true ∧
    0 ∈ perm.take 10 ++ [0, n - 1] ∧
    n - 1 ∈ perm.take 10 ++ [0, n - 1] ∧
    10 ≤ (perm.take 10 ++ [0, n - 1]).toFinset.card ∧
    (perm.take 10 ++ [0, n - 1]).toFinset.card ≤ 12 := by
  have hlen : perm.length = n := by simpa using hp.length_eq
  have htlen : (perm.take 10).length = 10 := by
    rw [List.length_take]; omega
  have hnodup : perm.Nodup := hp.nodup_iff.mpr (List.nodup_range n)
  have htake_nodup : (perm.take 10).Nodup :=
    hnodup.sublist (List.take_sublist 10 perm)
  have htake_card : (perm.take 10).toFinset.card = 10 := by
    rw [List.toFinset_card_of_nodup htake_nodup, htlen]
  have hmem : ∀ x ∈ perm.take 10, x < n := by
    intro x hx
    have hxp : x ∈ perm := List.mem_of_mem_take hx
    have := hp.mem_iff.mp hxp
    simpa using this
  refine ⟨?_, ?_, ?_, ?_, ?_, ?_, ?_⟩
  · simp only [getRandomList]
    rw [if_neg (by omega), if_pos (by omega)]
  · simp [htlen]
  · rw [List.all_eq_true]
    intro x hx
    rcases List.mem_append.mp hx with h | h
    · exact decide_eq_true (hmem x h)
    · have : x = 0 ∨ x = n - 1 := by simpa using h
      rcases this with rfl | rfl
      · exact decide_eq_true (by omega)
      · exact decide_eq_true (by omega)
  · exact List.mem_append_right _ (by simp)
  · exact List.mem_append_right _ (by simp)
  · rw [List.toFinset_append]
    calc 10 = (perm.take 10).toFinset.card := htake_card.symm
    _ ≤ ((perm.take 10).toFinset ∪ ([0, n - 1] : List ℕ).toFinset).card :=
        Finset.card_le_card (Finset.subset_union_left)
  · rw [List.toFinset_append]
    calc ((perm.take 10).toFinset ∪ ([0, n - 1] : List ℕ).toFinset).card
        ≤ (perm.take 10).toFinset.card + ([0, n - 1] : List ℕ).toFinset.card :=
          Finset.card_union_le _ _
    _ ≤ 10 + 2 := by
        have h2 : ([0, n - 1] : List ℕ).toFinset.card ≤ 2 := by
          have := List.toFinset_card_le ([0, n - 1] : List ℕ)
          simpa using this
        omega
    _ = 12 := rfl

/-- C2 witness: the amended theorem instantiated at n = 13 with the
identity permutation. -/
theorem getRandomList_large_sample_bounds_witness :
    (12 : ℕ) < 13 ∧ (List.range 13).Perm (List.range 13) ∧
    ((List.range 13).take 10 ++ [0, 13 - 1]).toFinset.card ≤ 12 :=
  ⟨by decide, List.Perm.refl _,
    (getRandomList_large_sample_bounds 13 (List.range 13) (by decide)
      (List.Perm.refl _)).2.2.2.2.2.2⟩

/-- C3: for 1 ≤ n ≤ 12 the selection terminates normally (the Option
result is some, i.e. the slice randPerm[:10] is never taken on a
permutation shorter than 10, and the definition is structurally
recursion-free, so there is no infinite search for fresh indices). -/
theorem getRandomList_small_n_no_panic (n : ℕ) (perm : List ℕ)
    (h1 : 1 ≤ n) (h2 : n ≤ 12) (hp : perm.Perm (List.range n)) :
    (getRandomList n perm).isSome = true := by
  by_cases hn : n ≤ 10
  · simp [getRandomList, hn]
  · have hlen : perm.length = n := by simpa using hp.length_eq
    have h10 : 10 ≤ perm.length := by omega
    simp [getRandomList, hn, h10]

/-- C3 witness at n = 11 with the identity permutation. -/
theorem getRandomList_small_n_no_panic_witness :
    (1 : ℕ) ≤ 11 ∧ (11 : ℕ) ≤ 12 ∧
    (getRandomList 11 (List.range 11)).isSome = true :=
  ⟨by decide, by decide,
    getRandomList_small_n_no_panic 11 (List.range 11) (by decide) (by decide)
      (List.Perm.refl _)⟩

/-! ## Theorems: listener builder -/

/-- C8: refuted by the code. A listener built with no setters keeps the
Go zero value in every unset field: Port = 0 (outside the gateway API's
valid PortNumber range 1..65535), Protocol = "" (not a protocol
constant), and nil Hostname/TLS/AllowedRoutes; the builder applies no
gateway-API default, contradicting its own doc comment. -/
theorem newListener_build_zero_values :
    (NewListener "test").Build.port = 0 ∧
    (NewListener "test").Build.protocol = "" ∧
    (NewListener "test").Build.hostname = none ∧
    (NewListener "test").Build.tls = none ∧
    (NewListener "test").Build.allowedRoutes = none ∧
    ¬ (1 ≤ (NewListener "test").Build.port ∧
        (NewListener "test").Build.port ≤ 65535) :=
  ⟨rfl, rfl, rfl, rfl, rfl, by decide⟩

theorem applyOp_preserves_name (b : ListenerBuilder) (op : SetterOp) :
    (applyOp b op).listener.name = b.listener.name := by
  cases op <;> rfl

/-- C9: no setter changes the Name field: after any finite sequence of
setter calls on NewListener(name), Build returns a Listener whose Name
is still the name given at construction. -/
theorem builder_name_invariant (name : String) (ops : List SetterOp) :
    ((applyOps (NewListener name) ops).Build).name = name := by
  suffices h : ∀ b : ListenerBuilder, (applyOps b ops).listener.name = b.listener.name by
    exact h (NewListener name)
  induction ops with
  | nil => intro b; rfl
  | cons op rest ih =>
    intro b
    have hstep : applyOps b (op :: rest) = applyOps (applyOp b op) rest := rfl
    rw [hstep, ih (applyOp b op), applyOp_preserves_name]

/-- C9 witness on a concrete setter sequence. -/
theorem builder_name_invariant_witness :
    ((applyOps (NewListener "l1")
      [SetterOp.http, SetterOp.withPort 80, SetterOp.withHostname "h"]).Build).name = "l1" :=
  builder_name_invariant "l1"
    [SetterOp.http, SetterOp.withPort 80, SetterOp.withHostname "h"]

/-- C10: IntoSlice returns a one-element slice holding exactly the
Listener that Build returns on the same builder state. -/
theorem intoSlice_singleton_build (b : ListenerBuilder) :
    b.IntoSlice.length = 1 ∧ b.IntoSlice = [b.Build] :=
  ⟨rfl, rfl⟩

/-- C10 witness on a concrete builder state. -/
theorem intoSlice_singleton_build_witness :
    (NewListener "w").IntoSlice.length = 1 ∧
    (NewListener "w").IntoSlice = [(NewListener "w").Build] :=
  intoSlice_singleton_build (NewListener "w")

/-! ## Theorems: harness trace -/

theorem conc_step_flags (s : Step)
    (h : isDispatch s = true ∨ isResolve s = true) :
    isSubmit s = false ∧ isVerifEndRecord s = false ∧
    recordInstant s = none ∧ reportPair s = none := by
  cases s <;>
    simp_all [isDispatch, isResolve, isSubmit, isVerifEndRecord,
      recordInstant, reportPair]

theorem before_of_append (p q : Step → Bool) (l1 l2 : List Step)
    (h1 : ∀ s ∈ l1, q s = false) (h2 : ∀ s ∈ l2, p s = false)
    (i j : ℕ) (hi : i < (l1 ++ l2).length) (hj : j < (l1 ++ l2).length)
    (hp : p ((l1 ++ l2)[i]) = true) (hq : q ((l1 ++ l2)[j]) = true) :
    i < j := by
  by_contra hij
  push_neg at hij
  rcases Nat.lt_or_ge i l1.length with hi1 | hi1
  · have hj1 : j < l1.length := Nat.lt_of_le_of_lt hij hi1
    have he : (l1 ++ l2)[j] = l1[j] := List.getElem_append_left hj1
    have : q ((l1 ++ l2)[j]) = false := by
      rw [he]; exact h1 _ (List.getElem_mem hj1)
    simp [this] at hq
  · have hlt : i - l1.length < l2.length := by
      have := List.length_append l1 l2
      omega
    have he : (l1 ++ l2)[i] = l2[i - l1.length] := List.getElem_append_right hi1
    have : p ((l1 ++ l2)[i]) = false := by
      rw [he]; exact h2 _ (List.getElem_mem hlt)
    simp [this] at hp

theorem isRun_tr0 : IsBasicPerfRun [7] 0 5 9 tr0 :=
  ⟨conc0, ⟨by decide, by decide, List.Perm.refl _, by decide⟩, rfl⟩

/-- C4 counterexample: a valid run of the harness captures exactly three
instants with time.Now — t1 (submission start), t2 (submission end) and
t4 (verification end) — not four: no verification-start instant exists
in the trace (the source has no t3). -/
theorem basicPerf_three_instants_counterexample :
    IsBasicPerfRun [7] 0 5 9 tr0 ∧
    (recordedInstants tr0).length = 3 ∧ (recordedInstants tr0).length ≠ 4 :=
  ⟨isRun_tr0, by decide, by decide⟩

/-- C4 (amended): the timing record of every run consists of exactly
three recorded instants — submission start t1, submission end t2 and
verification end t4 — and the two reported durations are derived from
exactly those three: submission duration t2 - t1 and propagation
latency t4 - t2 (submission end doubles as the verification baseline). -/
theorem basicPerf_timing_record (sample : List ℕ) (t1 t2 t4 : Int)
    (tr : List Step) (h : IsBasicPerfRun sample t1 t2 t4 tr) :
    recordedInstants tr = [t1, t2, t4] ∧
    reportedDurations tr = [(t2 - t1, t4 - t2)] := by
  obtain ⟨conc, hvc, rfl⟩ := h
  have hrec : ∀ s ∈ conc, recordInstant s = none :=
    fun s hs => (conc_step_flags s (hvc.1 s hs)).2.2.1
  have hrep : ∀ s ∈ conc, reportPair s = none :=
    fun s hs => (conc_step_flags s (hvc.1 s hs)).2.2.2
  constructor
  · simp [recordedInstants, recordInstant, List.filterMap_append,
      List.filterMap_eq_nil_iff.mpr hrec]
  · simp [reportedDurations, reportPair, List.filterMap_append,
      List.filterMap_eq_nil_iff.mpr hrep]

/-- C4 witness: the amended theorem at the concrete run tr0. -/
theorem basicPerf_timing_record_witness :
    IsBasicPerfRun [7] 0 5 9 tr0 ∧
    recordedInstants tr0 = [0, 5, 9] ∧
    reportedDurations tr0 = [((5 : Int) - 0, (9 : Int) - 5)] :=
  ⟨isRun_tr0, (basicPerf_timing_record [7] 0 5 9 tr0 isRun_tr0).1,
    (basicPerf_timing_record [7] 0 5 9 tr0 isRun_tr0).2⟩

/-- C5: in every run the synchronous kubectl-apply step occurs strictly
before every verification-task dispatch: no polling goroutine starts
while submission is in progress. -/
theorem basicPerf_submit_before_dispatch (sample : List ℕ) (t1 t2 t4 : Int)
    (tr : List Step) (h : IsBasicPerfRun sample t1 t2 t4 tr)
    (i j : ℕ) (hi : i < tr.length) (hj : j < tr.length)
    (hsub : isSubmit tr[i] = true) (hdis : isDispatch tr[j] = true) :
    i < j := by
  obtain ⟨conc, hvc, rfl⟩ := h
  exact before_of_append isSubmit isDispatch
    [Step.record 1 t1, Step.submit true, Step.record 2 t2]
    (conc ++ [Step.joinDone, Step.record 4 t4, Step.report (t2 - t1) (t4 - t2)])
    (by
      intro s hs
      fin_cases hs <;> rfl)
    (by
      intro s hs
      rcases List.mem_append.mp hs with h1 | h1
      · exact (conc_step_flags s (hvc.1 s h1)).1
      · fin_cases h1 <;> rfl)
    i j hi hj hsub hdis

/-- C5 witness: in the concrete run tr0 the submission (position 1)
precedes the dispatch (position 3). -/
theorem basicPerf_submit_before_dispatch_witness :
    IsBasicPerfRun [7] 0 5 9 tr0 ∧ (1 : ℕ) < 3 :=
  ⟨isRun_tr0,
    basicPerf_submit_before_dispatch [7] 0 5 9 tr0 isRun_tr0 1 3
      (by decide) (by decide) (by decide) (by decide)⟩

/-- C6: every run is a full join: each dispatched task resolves exactly
once (the resolved indices are a permutation of the sampled ones), and
every resolution occurs strictly before the verification-end instant t4
is recorded — never just the first resolution. -/
theorem basicPerf_full_join (sample : List ℕ) (t1 t2 t4 : Int)
    (tr : List Step) (h : IsBasicPerfRun sample t1 t2 t4 tr) :
    (tr.filterMap resolveIdx).Perm sample ∧
    ∀ i j : ℕ, ∀ hi : i < tr.length, ∀ hj : j < tr.length,
      isResolve tr[i] = true → isVerifEndRecord tr[j] = true → i < j := by
  obtain ⟨conc, hvc, rfl⟩ := h
  constructor
  · have hfm : (Step.record 1 t1 :: Step.submit true :: Step.record 2 t2 ::
        (conc ++ [Step.joinDone, Step.record 4 t4,
          Step.report (t2 - t1) (t4 - t2)])).filterMap resolveIdx
        = conc.filterMap resolveIdx := by
      simp [resolveIdx, List.filterMap_append]
    rw [hfm]
    exact hvc.2.2.1
  · intro i j hi hj hres hend
    exact before_of_append isResolve isVerifEndRecord
      ([Step.record 1 t1, Step.submit true, Step.record 2 t2] ++ conc)
      [Step.joinDone, Step.record 4 t4, Step.report (t2 - t1) (t4 - t2)]
      (by
        intro s hs
        rcases List.mem_append.mp hs with h1 | h1
        · fin_cases h1 <;> rfl
        · exact (conc_step_flags s (hvc.1 s h1)).2.1)
      (by
        intro s hs
        fin_cases hs <;> rfl)
      i j hi hj hres hend

/-- C6 witness: the concrete run tr0 resolves its single task, and that
resolution (position 4) precedes the t4 record (position 6). -/
theorem basicPerf_full_join_witness :
    IsBasicPerfRun [7] 0 5 9 tr0 ∧ (tr0.filterMap resolveIdx).Perm [7] :=
  ⟨isRun_tr0, (basicPerf_full_join [7] 0 5 9 tr0 isRun_tr0).1⟩

theorem pollLoop_deadline_iff_aux (probe : ℕ → ProbeResult) :
    ∀ fuel attempt : ℕ, pollLoop probe attempt fuel = TaskOutcome.deadline ↔
      ∀ i, i < fuel → attemptResult (probe (attempt + i)) = AttemptResult.retry := by
  intro fuel
  induction fuel with
  | zero =>
    intro attempt
    simp [pollLoop]
  | succ n ih =>
    intro attempt
    cases h : attemptResult (probe attempt) with
    | observed =>
      simp only [pollLoop, h]
      constructor
      · intro hc
        exact absurd hc (by decide)
      · intro hall
        have h0 := hall 0 (by omega)
        rw [Nat.add_zero, h] at h0
        exact absurd h0 (by decide)
    | retry =>
      simp only [pollLoop, h]
      rw [ih (attempt + 1)]
      constructor
      · intro hrest i hi
        cases i with
        | zero =>
          rw [Nat.add_zero]
          exact h
        | succ k =>
          have hk := hrest k (by omega)
          have heq : attempt + 1 + k = attempt + (k + 1) := by omega
          rwa [heq] at hk
      · intro hall k hk
        have hk1 := hall (k + 1) (by omega)
        have heq : attempt + 1 + k = attempt + (k + 1) := by omega
        rwa [heq]
    | fatal =>
      simp only [pollLoop, h]
      constructor
      · intro hc
        exact absurd hc (by decide)
      · intro hall
        have h0 := hall 0 (by omega)
        rw [Nat.add_zero, h] at h0
        exact absurd h0 (by decide)

/-- C7 counterexample: a probe whose 200 response fails its body read is
not absorbed by the task: require.NoError inside the closure aborts the
test at the very first attempt, with the deadline window (here 5 ticks)
untouched and the submission long since succeeded — an error that
propagates by itself, so deadline exhaustion and submission failure are
not the only errors that reach the caller. -/
theorem bodyReadError_aborts_counterexample :
    attemptResult (ProbeResult.ok 200 true "") = AttemptResult.fatal ∧
    taskOutcome (fun _ => ProbeResult.ok 200 true "") 5 = TaskOutcome.aborted ∧
    taskOutcome (fun _ => ProbeResult.ok 200 true "") 5 ≠ TaskOutcome.deadline ∧
    taskOutcome (fun _ => ProbeResult.ok 200 true "") 5 ≠ TaskOutcome.success :=
  ⟨rfl, rfl, by decide, by decide⟩

/-- C7 (amended): a transient transport error (Do returning err != nil
on one attempt) is absorbed locally — the closure returns false, the
task sleeps one poll interval and retries — and never by itself resolves
the task; a task resolves as a deadline failure exactly when every
attempt in the window retries; but besides deadline exhaustion and
submission failure (which aborts the run before any dispatch), one more
error propagates to the caller: on a 200 response, a body-read error or
an empty body fails the test immediately from inside the closure. -/
theorem basicPerf_error_propagation :
    (∀ (probe : ℕ → ProbeResult) (attempt fuel : ℕ),
        probe attempt = ProbeResult.err →
        pollLoop probe attempt (fuel + 1) = pollLoop probe (attempt + 1) fuel) ∧
    (attemptResult ProbeResult.err = AttemptResult.retry) ∧
    (∀ (probe : ℕ → ProbeResult) (fuel : ℕ),
        taskOutcome probe fuel = TaskOutcome.deadline ↔
          ∀ i, i < fuel → attemptResult (probe i) = AttemptResult.retry) ∧
    (∀ (status : ℕ) (readErr : Bool) (body : String),
        attemptResult (ProbeResult.ok status readErr body) = AttemptResult.fatal ↔
          (status = 200 ∧ (readErr = true ∨ body.length = 0))) ∧
    (∀ (t1 : Int) (tr : List Step), IsAbortedRun t1 tr →
        (∀ s ∈ tr, isDispatch s = false) ∧ Step.submit false ∈ tr) := by
  refine ⟨?_, rfl, ?_, ?_, ?_⟩
  · intro probe attempt fuel h
    simp [pollLoop, h, attemptResult]
  · intro probe fuel
    have h := pollLoop_deadline_iff_aux probe fuel 0
    simpa [taskOutcome] using h
  · intro status readErr body
    simp only [attemptResult]
    split_ifs with h1 h2 h3 h4 <;> simp_all
  · intro t1 tr htr
    rw [htr]
    refine ⟨?_, by simp⟩
    intro s hs
    fin_cases hs <;> rfl
